import Mathlib

/-!
Verification of `wafb` (luastan/wafb), a WAF-bypass origin-server finder.

The Go source (`src/main.go`) is shallowly embedded below.  Go strings are
modelled as `List Char` (the inputs of interest are ASCII), Go's `uint32`
values as `Nat` with explicit wraparound `% 2^32` where the source can
overflow, and Go's fallible or panicking code as explicit result types.
Loops whose termination is in question (the block-range loop) are modelled
with explicit fuel, so that genuine non-termination of the source is provable
as `none`/`running` for every fuel value.
-/

/-! ### Go string primitives

`strings.Split` with a one-character separator, `strings.TrimSpace`, and
`strings.Contains` with a one-character needle, over `List Char`. -/

/-- Semantics of Go `strings.Split(s, sep)` for a single-character separator:
splitting the empty string yields one empty field. -/
def splitOnChar (sep : Char) : List Char → List (List Char)
  | [] => [[]]
  | c :: rest =>
    if c = sep then [] :: splitOnChar sep rest
    else
      match splitOnChar sep rest with
      | [] => [[c]]
      | g :: gs => (c :: g) :: gs

/-- Go `unicode.IsSpace` restricted to the ASCII whitespace characters. -/
def goIsSpace (c : Char) : Bool :=
  c = ' ' || c = '\t' || c = '\n' || c = '\x0b' || c = '\x0c' || c = '\r'

/-- Go `strings.TrimSpace`. -/
def trimSpace (s : List Char) : List Char :=
  ((s.dropWhile goIsSpace).reverse.dropWhile goIsSpace).reverse

/-- Go `strings.Contains(s, string(c))` for a one-character needle. -/
def containsChar (s : List Char) (c : Char) : Bool :=
  s.contains c

/-! ### IPv4 parsing and printing

`net.ParseIP` (IPv4 dotted-quad branch), the IPv4 branch of `net.ParseCIDR`,
and `net.IP.String` for a 4-byte IP, as used by `src/main.go`.  An address
is its big-endian `uint32` value (`binary.BigEndian.Uint32`), a `Nat < 2^32`. -/

/-- Decimal value of a digit string. -/
def digitsVal (cs : List Char) : Nat :=
  cs.foldl (fun acc c => acc * 10 + (c.toNat - '0'.toNat)) 0

/-- One dotted-quad field of `net.ParseIP`: one to three decimal digits,
no leading zero, value at most 255. -/
def parseIPv4Field (cs : List Char) : Option Nat :=
  if cs.isEmpty then none
  else if !(cs.all Char.isDigit) then none
  else if cs.length > 1 && cs.headI = '0' then none
  else if cs.length > 3 then none
  else if digitsVal cs > 255 then none
  else some (digitsVal cs)

/-- The IPv4 (dotted-quad) branch of Go `net.ParseIP`, composed with
`.To4()` and `binary.BigEndian.Uint32`: the address as a `Nat < 2^32`.
(The IPv6 branch of `ParseIP` is irrelevant to the IPv4 claims and is not
modelled; a non-dotted-quad input is `none`, which in the source surfaces
as a `nil` IP.) -/
def parseIPv4 (s : List Char) : Option Nat :=
  match splitOnChar '.' s with
  | [f0, f1, f2, f3] =>
    match parseIPv4Field f0, parseIPv4Field f1, parseIPv4Field f2, parseIPv4Field f3 with
    | some a, some b, some c, some d => some (((a * 256 + b) * 256 + c) * 256 + d)
    | _, _, _, _ => none
  | _ => none

/-- Prefix-length parse of `net.ParseCIDR` (its `dtoi` helper plus the full
consumption and `n ≤ 32` checks): a non-empty all-digit string with value
at most 32. -/
def parsePrefixLen (cs : List Char) : Option Nat :=
  if cs.isEmpty then none
  else if !(cs.all Char.isDigit) then none
  else if digitsVal cs > 32 then none
  else some (digitsVal cs)

/-- The IPv4 branch of Go `net.ParseCIDR`: the text left of the `/` parsed as
a dotted quad and the text right of it as a prefix length.  (`ParseCIDR`
splits at the first `/`; a second `/` makes the prefix part unparseable in
both the source and this model.) -/
def parseCIDR (s : List Char) : Option (Nat × Nat) :=
  match splitOnChar '/' s with
  | [a, m] =>
    match parseIPv4 a, parsePrefixLen m with
    | some ip, some n => some (ip, n)
    | _, _ => none
  | _ => none

/-- Value of `net.CIDRMask(n, 32)` read by `binary.BigEndian.Uint32`:
`n` leading one bits. -/
def maskOf (n : Nat) : Nat :=
  2 ^ 32 - 2 ^ (32 - n)

/-- Decimal digit characters of a `Nat`, most significant first, by
structural recursion on a digit-count bound (a value `n` has at most
`n + 1` decimal digits, so the bound never runs out). -/
def natCharsAux : Nat → Nat → List Char
  | 0, _ => []
  | _, 0 => []
  | bound + 1, n => natCharsAux bound (n / 10) ++ [Char.ofNat ('0'.toNat + n % 10)]

/-- Go's integer-to-decimal formatting, as used by `net.IP.String`. -/
def natChars (n : Nat) : List Char :=
  if n = 0 then ['0'] else natCharsAux (n + 1) n

/-- Go `net.IP.String()` for the 4-byte IP written by
`binary.BigEndian.PutUint32`: the dotted-quad rendering of a `uint32`. -/
def ipString (v : Nat) : List Char :=
  natChars (v / 2 ^ 24 % 256) ++ '.' :: natChars (v / 2 ^ 16 % 256) ++
    '.' :: natChars (v / 2 ^ 8 % 256) ++ '.' :: natChars (v % 256)

/-- Iteration structure of the `parseCIDRNetwork` loop: with `k` iterations
left to run, emit `ip.String()` for `k` consecutive values from `i`. -/
def cidrLoopN : Nat → Nat → List (List Char)
  | 0, _ => []
  | k + 1, i => ipString i :: cidrLoopN k (i + 1)

/-- The loop of `parseCIDRNetwork`: `for i := start; i < end; i++`
appending `ip.String()`.  The strict bound `i < end` makes the loop run
exactly `end - i` times (`cidrLoop_step` below re-derives the source
loop's recurrence from this definition). -/
def cidrLoop (i endV : Nat) : List (List Char) :=
  cidrLoopN (endV - i) i

/-- `parseCIDRNetwork` from `src/main.go`: parse the CIDR, read `start` from
the (already masked) network IP and recompute
`end := (start & mask) | (mask ^ 0xffffffff)`, then emit every address in
`[start, end)`.  `none` is the `err != nil` return. -/
def parseCIDRNetwork (ipRange : List Char) : Option (List (List Char)) :=
  match parseCIDR ipRange with
  | none => none
  | some (ip, n) =>
    let mask := maskOf n
    let start := ip &&& mask
    let endV := (start &&& mask) ||| (mask ^^^ 0xffffffff)
    some (cidrLoop start endV)

/-! ### Block-range parsing (`parseNetworkBlock`)

The source function can panic (`ErrorLogger.Panicf` when the split does not
give two pieces, and `binary.BigEndian.Uint32(nil)` — an index-out-of-range
runtime panic — when `net.ParseIP` fails on a piece), and its enumeration
loop `for i := start; i <= end; i++` runs over a `uint32` counter, so `i++`
wraps to `0` at `2^32`.  The loop is therefore given explicit fuel. -/

/-- Outcome of one `parseNetworkBlock` call:  a runtime panic, an
enumeration still running after the given fuel, or the returned list. -/
inductive BlockRun where
  | panicked (msg : List Char)
  | running
  | done (addrs : List (List Char))
  deriving DecidableEq

/-- The loop of `parseNetworkBlock`: `for i := start; i <= end; i++` with a
`uint32` counter (increment wraps at `2^32`), appending `ip.String()`.
`none` means the fuel ran out before the loop exited. -/
def blockLoop (fuel i endV : Nat) (acc : List (List Char)) : Option (List (List Char)) :=
  match fuel with
  | 0 => none
  | f + 1 =>
    if i ≤ endV then blockLoop f ((i + 1) % 2 ^ 32) endV (acc ++ [ipString i])
    else some acc

/-- `parseNetworkBlock` from `src/main.go`: trim the line, split on `-`,
panic unless exactly two pieces result, parse each piece with `net.ParseIP`
(a failed parse reaches `binary.BigEndian.Uint32(nil)`, an
index-out-of-range panic), then run the inclusive enumeration loop. -/
def parseNetworkBlock (fuel : Nat) (ipBlock : List Char) : BlockRun :=
  let block := trimSpace ipBlock
  let edges := splitOnChar '-' block
  if edges.length ≠ 2 then .panicked ("not a valid block".toList)
  else
    match parseIPv4 (edges.getD 0 []) with
    | none => .panicked ("runtime error: index out of range".toList)
    | some start =>
      match parseIPv4 (edges.getD 1 []) with
      | none => .panicked ("runtime error: index out of range".toList)
      | some endV =>
        match blockLoop fuel start endV [] with
        | none => .running
        | some addrs => .done addrs

/-! ### `parseAddresses` and the file reader -/

/-- Outcome of expanding one input line: the produced addresses together
with whether the `Unable to parse ... Skipping` warning was logged, a
propagated panic, or an enumeration that is still running. -/
inductive ExpandResult where
  | ok (addrs : List (List Char)) (warned : Bool)
  | panicked (msg : List Char)
  | running
  deriving DecidableEq

/-- `parseAddresses` from `src/main.go`: a line containing `/` goes to
`parseCIDRNetwork` (on error the line is skipped with a warning and no
addresses), otherwise a line containing `-` goes to `parseNetworkBlock`
(whose panics abort instead of returning), and any other line — the empty
line included — is passed through verbatim as a single address. -/
def parseAddresses (fuel : Nat) (address : List Char) : ExpandResult :=
  if containsChar address '/' then
    match parseCIDRNetwork address with
    | some addrs => .ok addrs false
    | none => .ok [] true
  else if containsChar address '-' then
    match parseNetworkBlock fuel address with
    | .panicked m => .panicked m
    | .running => .running
    | .done addrs => .ok addrs false
  else
    .ok [address] false

/-- The line loop shared by `getAddressesFromFile` and
`getAddressesFromStdin`: expand each line and append the results. -/
def collectLines (fuel : Nat) : List (List Char) → List (List Char) → ExpandResult
  | [], acc => .ok acc false
  | l :: ls, acc =>
    match parseAddresses fuel l with
    | .ok addrs _ => collectLines fuel ls (acc ++ addrs)
    | .panicked m => .panicked m
    | .running => .running

/-- `getAddressesFromFile` from `src/main.go` on already-read file contents:
split on newlines and expand every line. -/
def getAddressesFromFile (fuel : Nat) (contents : List Char) : ExpandResult :=
  collectLines fuel (splitOnChar '\n' contents) []

/-! ### Accepted-status-code configuration (`main`, lines 78-83)

`for _, strCode := range strings.Split(*validStatusCodes, ",") { code, err :=
strconv.Atoi(strCode); if err == nil { ValidStatusCodes[code] = true } }` -/

/-- Go `strconv.Atoi`: optional sign, then at least one decimal digit and
nothing else, with the value required to fit in a 64-bit `int`
(out-of-range input gives `ErrRange`, i.e. a non-nil error). -/
def goAtoi (s : List Char) : Option Int :=
  let signed : Bool × List Char :=
    match s with
    | '-' :: rest => (true, rest)
    | '+' :: rest => (false, rest)
    | _ => (false, s)
  let ds := signed.2
  if ds.isEmpty then none
  else if !(ds.all Char.isDigit) then none
  else
    let v : Int := if signed.1 then -(digitsVal ds : Int) else (digitsVal ds : Int)
    if v < -(2 ^ 63) || v ≥ 2 ^ 63 then none
    else some v

/-- The `ValidStatusCodes` map built by `main`: the loop over the
comma-separated configuration string, keeping each token `strconv.Atoi`
accepts and silently dropping the rest.  The Go `map[int]bool` is modelled
by the list of inserted keys (membership is what the map provides). -/
def buildValidStatusCodes (s : List Char) : List Int :=
  (splitOnChar ',' s).foldl
    (fun acc strCode =>
      match goAtoi strCode with
      | some code => acc ++ [code]
      | none => acc)
    []

/-! ### Response classification in `doRequest` (lines 269-276)

`if statusCode >= 300 && !ValidStatusCodes[statusCode] { return "", fmt.Errorf(...) }`;
otherwise the body is read and returned. -/

/-- The status-code gate of `doRequest`: `Except.error` is the
`server error: status N` return (a rejected status), `Except.ok` continues
to the body read. -/
def classifyResponse (validCodes : List Int) (statusCode : Int) (body : List Char) :
    Except (List Char) (List Char) :=
  if 300 ≤ statusCode && !(validCodes.contains statusCode) then
    .error ("server error".toList)
  else
    .ok body

/-! ### Request construction (`performTest` and `doRequest`)

`performTest` receives the target `url.URL` **by value** (a copy), saves
`vhost := u.Host`, overwrites `u.Host = address`, and calls `doRequest`
with the rewritten URL and the saved virtual host; `doRequest` builds the
request, sets the `Cookie` header when the cookie string is non-empty, and
sets `req.Host = vhost`. -/

/-- The fields of Go's `url.URL` that `wafb` uses. -/
structure GoURL where
  scheme : List Char
  host : List Char
  path : List Char
  deriving DecidableEq

/-- The request `doRequest` hands to `Client.Do`: its connection URL, its
`Host` header (`req.Host`), its `User-Agent`, and its optional `Cookie`. -/
structure HTTPRequest where
  url : GoURL
  hostHeader : List Char
  userAgent : List Char
  cookie : Option (List Char)
  deriving DecidableEq

/-- Request construction inside `doRequest` (lines 257-267). -/
def doRequestBuild (u : GoURL) (vhost cookieString : List Char) : HTTPRequest :=
  { url := u
    hostHeader := vhost
    userAgent := ("Mozilla/5.0 (X11; Linux x86_64) AppleWebKit/537.36" ++
      " (KHTML, like Gecko) Chrome/51.0.2704.103 Safari/537.36").toList
    cookie := if cookieString.length > 0 then some cookieString else none }

/-- The request issued by `performTest` for one candidate address: the
virtual host is read from the probe's own copy of the target URL, the copy's
host is replaced by the candidate address, and `doRequest` builds the
request from the rewritten URL and the saved virtual host. -/
def performTestRequest (u : GoURL) (address cookieString : List Char) : HTTPRequest :=
  let vhost := u.host
  let u' := { u with host := address }
  doRequestBuild u' vhost cookieString

/-! ### Similarity scoring

Modelled from the spec: the scoring metric is `metrics.NewSorensenDice()`
from the external `github.com/adrg/strutil` library, which is not part of
this repository's sources; `main` only configures it (`CaseSensitive =
true`, `NgramSize = 8`, lines 123-125) and `performTest` applies it (line
176).  Following spec §4.3: the Sørensen–Dice coefficient over the
multisets of contiguous 8-character substrings, `2·|G(A) ∩ G(B)| /
(|G(A)| + |G(B)|)` with multiset intersection, and 0.0 when both n-gram
multisets are empty.  Scores are modelled in `ℚ`; the claim-relevant
values 0 and 1 are exact in `float64` as well. -/

/-- All contiguous `size`-character substrings of a text, with multiplicity. -/
def ngrams (size : Nat) (s : List Char) : List (List Char) :=
  (List.range (s.length + 1 - size)).map (fun i => (s.drop i).take size)

/-- Modelled from the spec: the configured Sørensen–Dice similarity
(case-sensitive, n-gram size 8) of two response bodies. -/
def diceSimilarity (a b : List Char) : ℚ :=
  let ga := ngrams 8 a
  let gb := ngrams 8 b
  if ga.length + gb.length = 0 then 0
  else
    2 * (Multiset.card ((ga : Multiset (List Char)) ∩ (gb : Multiset (List Char))) : ℚ) /
      ((ga.length : ℚ) + (gb.length : ℚ))

/-! ### Result emission (`performTest`, lines 167-179)

`checkedBody, err := doRequest(...)`; on error the branch body is empty (no
output, no surfaced error); otherwise one result line is printed.  The
printed line is modelled as the pair (address, similarity) it carries. -/

/-- The `err != nil` test in `performTest`, read positively: `true` exactly
when `doRequest` returned without error. -/
def errIsNil : Except (List Char) (List Char) → Bool
  | .ok _ => true
  | .error _ => false

/-- The output lines one `performTest` worker produces, given the outcome
of its `doRequest` call: none on error, exactly one on success. -/
def performTestEmit (address : List Char) (originalBody : List Char)
    (result : Except (List Char) (List Char)) : List (List Char × ℚ) :=
  match result with
  | .error _ => []
  | .ok checkedBody => [(address, diceSimilarity checkedBody originalBody)]

/-- The lines of a whole run: each candidate's worker contributes the
emission for its own `doRequest` outcome, independently of the others. -/
def runEmissions (originalBody : List Char)
    (results : List (List Char × Except (List Char) (List Char))) : List (List Char × ℚ) :=
  results.flatMap (fun r => performTestEmit r.1 originalBody r.2)

/-! ### Arithmetic facts about the CIDR mask computations -/

/-- `cidrLoop` satisfies exactly the recurrence of the source loop
`for i := start; i < end; i++ { append(ip.String()) }`. -/
theorem cidrLoop_step (i endV : Nat) :
    cidrLoop i endV = if i < endV then ipString i :: cidrLoop (i + 1) endV else [] := by
  unfold cidrLoop
  rcases Nat.lt_or_ge i endV with h | h
  · have hk : endV - i = (endV - (i + 1)) + 1 := by omega
    rw [hk]
    simp [cidrLoopN, h]
  · have hk : endV - i = 0 := by omega
    rw [hk]
    simp [cidrLoopN, Nat.not_lt.mpr h]

theorem maskOf_eq_mul {n : Nat} (hn : n ≤ 32) :
    maskOf n = 2 ^ (32 - n) * (2 ^ n - 1) := by
  unfold maskOf
  have h1 : 2 ^ (32 - n) * 2 ^ n = 2 ^ 32 := by
    rw [← pow_add]
    congr 1
    omega
  rw [Nat.mul_sub_one, h1]

theorem testBit_maskOf {n : Nat} (hn : n ≤ 32) (j : Nat) :
    (maskOf n).testBit j = (decide (32 - n ≤ j) && decide (j < 32)) := by
  rw [maskOf_eq_mul hn]
  have h0 : (0 : Nat) < 2 ^ (32 - n) := Nat.pos_pow_of_pos _ (by omega)
  have hsplit := Nat.testBit_mul_pow_two_add (2 ^ n - 1) (i := 32 - n) h0 j
  rw [Nat.add_zero] at hsplit
  rw [hsplit]
  rcases Nat.lt_or_ge j (32 - n) with hj | hj
  · rw [if_pos hj, Nat.zero_testBit]
    have h2 : ¬ (32 - n ≤ j) := by omega
    simp [h2]
  · rw [if_neg (Nat.not_lt.mpr hj), Nat.testBit_two_pow_sub_one]
    by_cases hj32 : j < 32
    · have h3 : j - (32 - n) < n := by omega
      simp [hj, hj32, h3]
    · have h3 : ¬ (j - (32 - n) < n) := by omega
      simp [h3, hj32]

theorem network_mod_eq_zero {ip n : Nat} (hn : n ≤ 32) :
    (ip &&& maskOf n) % 2 ^ (32 - n) = 0 := by
  rw [← Nat.and_pow_two_sub_one_eq_mod, Nat.and_assoc]
  have hm : maskOf n &&& 2 ^ (32 - n) - 1 = 0 := by
    apply Nat.eq_of_testBit_eq
    intro j
    simp [testBit_maskOf hn, Nat.testBit_two_pow_sub_one]
    omega
  rw [hm, Nat.and_zero]

theorem maskOf_xor_allOnes {n : Nat} (hn : n ≤ 32) :
    maskOf n ^^^ 0xffffffff = 2 ^ (32 - n) - 1 := by
  apply Nat.eq_of_testBit_eq
  intro j
  have hff : (0xffffffff : Nat) = 2 ^ 32 - 1 := by norm_num
  rw [Nat.testBit_xor, hff, Nat.testBit_two_pow_sub_one, Nat.testBit_two_pow_sub_one,
    testBit_maskOf hn]
  rcases Nat.lt_or_ge j (32 - n) with hj | hj
  · simp [hj]
    omega
  · simp [Nat.not_lt.mpr hj]
    omega

/-- A value whose low `k` bits are clear absorbs a `k`-bit value additively
under bitwise or: this is what turns `start | ^mask` into `start + (2^k - 1)`. -/
theorem lor_eq_add_of_mod_eq_zero {a b k : Nat} (ha : a % 2 ^ k = 0) (hb : b < 2 ^ k) :
    a ||| b = a + b := by
  have hq : a = 2 ^ k * (a / 2 ^ k) := by
    conv_lhs => rw [← Nat.div_add_mod a (2 ^ k)]
    omega
  apply Nat.eq_of_testBit_eq
  intro j
  have hadd : (2 ^ k * (a / 2 ^ k) + b).testBit j =
      if j < k then b.testBit j else (a / 2 ^ k).testBit (j - k) :=
    Nat.testBit_mul_pow_two_add (a / 2 ^ k) hb j
  have hzero : (0 : Nat) < 2 ^ k := Nat.pos_pow_of_pos _ (by omega)
  have ha' : a.testBit j = if j < k then false else (a / 2 ^ k).testBit (j - k) := by
    conv_lhs => rw [hq]
    have := Nat.testBit_mul_pow_two_add (a / 2 ^ k) (i := k) hzero j
    rw [Nat.add_zero] at this
    rw [this]
    rcases Nat.lt_or_ge j k with hj | hj
    · simp [hj]
    · simp [Nat.not_lt.mpr hj]
  rw [← hq] at hadd
  rw [Nat.testBit_or, hadd, ha']
  rcases Nat.lt_or_ge j k with hj | hj
  · simp [hj]
  · have hbj : b.testBit j = false := by
      apply Nat.testBit_lt_two_pow
      calc b < 2 ^ k := hb
        _ ≤ 2 ^ j := Nat.pow_le_pow_right (by omega) hj
    simp [Nat.not_lt.mpr hj, hbj]

/-- The `end` value computed by `parseCIDRNetwork` is the network address
plus the host-part all-ones value. -/
theorem cidr_end_eq {ip n : Nat} (hn : n ≤ 32) :
    ((ip &&& maskOf n) &&& maskOf n) ||| (maskOf n ^^^ 0xffffffff) =
      (ip &&& maskOf n) + (2 ^ (32 - n) - 1) := by
  rw [Nat.and_assoc, Nat.and_self, maskOf_xor_allOnes hn]
  apply lor_eq_add_of_mod_eq_zero (network_mod_eq_zero hn)
  have : (0 : Nat) < 2 ^ (32 - n) := Nat.pos_pow_of_pos _ (by omega)
  omega

/-- The CIDR loop enumerates consecutive addresses in ascending order. -/
theorem cidrLoopN_eq_range_map (k : Nat) :
    ∀ i, cidrLoopN k i = (List.range k).map (fun j => ipString (i + j)) := by
  induction k with
  | zero => intro i; simp [cidrLoopN]
  | succ k ih =>
    intro i
    rw [List.range_succ_eq_map]
    simp only [cidrLoopN, List.map_cons, List.map_map, Nat.add_zero]
    refine congrArg₂ _ rfl ?_
    rw [ih (i + 1)]
    apply List.map_congr_left
    intro j _
    simp [Function.comp]
    congr 1
    omega

theorem cidrLoop_eq_range_map (i endV : Nat) :
    cidrLoop i endV = (List.range (endV - i)).map (fun j => ipString (i + j)) :=
  cidrLoopN_eq_range_map (endV - i) i

/-! ### Inversion facts for the parsers -/

theorem parseIPv4Field_le {cs : List Char} {v : Nat}
    (h : parseIPv4Field cs = some v) : v ≤ 255 := by
  unfold parseIPv4Field at h
  split_ifs at h
  all_goals rw [Option.some_inj] at h
  all_goals omega

theorem parseIPv4_lt {s : List Char} {v : Nat}
    (h : parseIPv4 s = some v) : v < 2 ^ 32 := by
  unfold parseIPv4 at h
  split at h
  case _ f0 f1 f2 f3 =>
    split at h
    case _ a b c d ha hb hc hd =>
      rw [Option.some_inj] at h
      have la := parseIPv4Field_le ha
      have lb := parseIPv4Field_le hb
      have lc := parseIPv4Field_le hc
      have ld := parseIPv4Field_le hd
      omega
    case _ => exact absurd h (by simp)
  case _ => exact absurd h (by simp)

theorem parsePrefixLen_le {cs : List Char} {n : Nat}
    (h : parsePrefixLen cs = some n) : n ≤ 32 := by
  unfold parsePrefixLen at h
  split_ifs at h
  all_goals rw [Option.some_inj] at h
  all_goals omega

theorem parseCIDR_inv {s : List Char} {ip n : Nat}
    (h : parseCIDR s = some (ip, n)) : ip < 2 ^ 32 ∧ n ≤ 32 := by
  unfold parseCIDR at h
  split at h
  case _ a m =>
    split at h
    case _ ip' n' hip hn =>
      rw [Option.some_inj] at h
      cases h
      exact ⟨parseIPv4_lt hip, parsePrefixLen_le hn⟩
    case _ => exact absurd h (by simp)
  case _ => exact absurd h (by simp)

/-! ### Claim C1 -/

/-- Claim C1: for every CIDR input line `a.b.c.d/n`, the expander emits
exactly `2^(32-n) - 1` addresses: every address from the network address
(included) up to but excluding the broadcast address, in ascending order,
and whenever anything is emitted the first element is the network address. -/
theorem claim1_cidr_expansion (s : List Char) (ip n : Nat)
    (h : parseCIDR s = some (ip, n)) :
    ∃ addrs, parseCIDRNetwork s = some addrs ∧
      addrs.length = 2 ^ (32 - n) - 1 ∧
      addrs = (List.range (2 ^ (32 - n) - 1)).map (fun j => ipString ((ip &&& maskOf n) + j)) ∧
      ∀ a, addrs.head? = some a → a = ipString (ip &&& maskOf n) := by
  have hn : n ≤ 32 := (parseCIDR_inv h).2
  refine ⟨cidrLoop (ip &&& maskOf n)
      (((ip &&& maskOf n) &&& maskOf n) ||| (maskOf n ^^^ 0xffffffff)), ?_, ?_, ?_, ?_⟩
  · unfold parseCIDRNetwork
    rw [h]
  · rw [cidr_end_eq hn, cidrLoop_eq_range_map, Nat.add_sub_cancel_left]
    simp
  · rw [cidr_end_eq hn, cidrLoop_eq_range_map, Nat.add_sub_cancel_left]
  · intro a ha
    rw [cidr_end_eq hn, cidrLoop_eq_range_map, Nat.add_sub_cancel_left] at ha
    rcases hk : 2 ^ (32 - n) - 1 with _ | m
    · rw [hk] at ha
      simp at ha
    · rw [hk, List.range_succ_eq_map] at ha
      simp at ha
      exact ha.symm

/-- Witness for C1 at the spec's concrete scenario `10.0.0.0/30`: three
addresses, `10.0.0.3` (the broadcast) excluded. -/
theorem claim1_cidr_expansion_witness :
    (∃ addrs, parseCIDRNetwork "10.0.0.0/30".toList = some addrs ∧
      addrs.length = 2 ^ (32 - 30) - 1 ∧
      addrs = (List.range (2 ^ (32 - 30) - 1)).map
        (fun j => ipString ((167772160 &&& maskOf 30) + j)) ∧
      ∀ a, addrs.head? = some a → a = ipString (167772160 &&& maskOf 30)) ∧
    parseCIDRNetwork "10.0.0.0/30".toList =
      some ["10.0.0.0".toList, "10.0.0.1".toList, "10.0.0.2".toList] :=
  ⟨claim1_cidr_expansion _ 167772160 30 (by decide), by decide⟩

/-! ### Behaviour of the block-range loop -/

/-- With enough fuel, and an end value strictly below the `uint32` maximum,
the block loop terminates and appends exactly the addresses `i, …, endV`. -/
theorem blockLoop_done (fuel : Nat) :
    ∀ i acc, endV + 1 < 2 ^ 32 → i ≤ endV + 1 → endV + 2 - i ≤ fuel →
      blockLoop fuel i endV acc =
        some (acc ++ (List.range (endV + 1 - i)).map (fun j => ipString (i + j))) := by
  induction fuel with
  | zero =>
    intro i acc _ hi hf
    omega
  | succ f ih =>
    intro i acc hend hi hf
    rcases Nat.lt_or_ge endV i with hgt | hle
    · have hi' : ¬ i ≤ endV := by omega
      have hr : endV + 1 - i = 0 := by omega
      simp [blockLoop, hi', hr]
    · have step : blockLoop (f + 1) i endV acc =
          blockLoop f (i + 1) endV (acc ++ [ipString i]) := by
        simp only [blockLoop, if_pos hle]
        congr 1
        omega
      rw [step, ih (i + 1) (acc ++ [ipString i]) hend (by omega) (by omega)]
      have hr : endV + 1 - i = (endV - i) + 1 := by omega
      rw [hr, List.range_succ_eq_map]
      simp only [List.map_cons, List.map_map, List.append_assoc, List.singleton_append,
        Nat.add_zero]
      refine congrArg _ (congrArg _ (congrArg₂ _ rfl ?_))
      have hr2 : endV + 1 - (i + 1) = endV - i := by omega
      rw [hr2]
      apply List.map_congr_left
      intro j _
      simp [Function.comp]
      congr 1
      omega

/-- When the end value is the `uint32` maximum `2^32 - 1`, the loop guard
`i <= end` holds for every `uint32` counter value, so the loop never exits,
whatever the fuel. -/
theorem blockLoop_never (fuel : Nat) :
    ∀ i acc, i < 2 ^ 32 → blockLoop fuel i (2 ^ 32 - 1) acc = none := by
  induction fuel with
  | zero =>
    intro i acc _
    rfl
  | succ f ih =>
    intro i acc hi
    have hle : i ≤ 2 ^ 32 - 1 := by omega
    simp only [blockLoop, hle, if_true]
    exact ih _ _ (Nat.mod_lt _ (by omega))

/-! ### Claim C5 -/

/-- Claim C5 (amended): for every block line `start-end` whose two pieces
parse as IPv4 with `start ≤ end`, **and whose end is below
`255.255.255.255`**, `parseNetworkBlock` (given fuel covering the
iteration count) returns exactly the `end - start + 1` addresses from
`start` to `end` inclusive, in ascending order, with both endpoints
present.  (At `end = 255.255.255.255` the enumeration never terminates;
see the counterexample.) -/
theorem claim5_block_expansion (s : List Char) (a b fuel : Nat)
    (h1 : (splitOnChar '-' (trimSpace s)).length = 2)
    (h2 : parseIPv4 ((splitOnChar '-' (trimSpace s)).getD 0 []) = some a)
    (h3 : parseIPv4 ((splitOnChar '-' (trimSpace s)).getD 1 []) = some b)
    (hab : a ≤ b) (hb : b + 1 < 2 ^ 32) (hf : b + 2 - a ≤ fuel) :
    parseNetworkBlock fuel s =
      .done ((List.range (b + 1 - a)).map (fun j => ipString (a + j))) ∧
    ((List.range (b + 1 - a)).map (fun j => ipString (a + j))).length = b - a + 1 ∧
    ipString a ∈ (List.range (b + 1 - a)).map (fun j => ipString (a + j)) ∧
    ipString b ∈ (List.range (b + 1 - a)).map (fun j => ipString (a + j)) := by
  refine ⟨?_, ?_, ?_, ?_⟩
  · simp only [parseNetworkBlock, h1, h2, h3, ne_eq, not_true_eq_false, if_false]
    rw [blockLoop_done fuel a [] hb (by omega) hf]
    simp
  · simp
    omega
  · refine List.mem_map.mpr ⟨0, ?_, by rw [Nat.add_zero]⟩
    exact List.mem_range.mpr (by omega)
  · refine List.mem_map.mpr ⟨b - a, ?_, by congr 1; omega⟩
    exact List.mem_range.mpr (by omega)

/-- Witness for C5 at the spec's concrete scenario `10.0.0.1-10.0.0.3`:
three addresses, both endpoints included. -/
theorem claim5_block_expansion_witness :
    (parseNetworkBlock 5 "10.0.0.1-10.0.0.3".toList =
      .done ((List.range (167772163 + 1 - 167772161)).map
        (fun j => ipString (167772161 + j))) ∧
    ((List.range (167772163 + 1 - 167772161)).map
      (fun j => ipString (167772161 + j))).length = 167772163 - 167772161 + 1 ∧
    ipString 167772161 ∈ (List.range (167772163 + 1 - 167772161)).map
      (fun j => ipString (167772161 + j)) ∧
    ipString 167772163 ∈ (List.range (167772163 + 1 - 167772161)).map
      (fun j => ipString (167772161 + j))) ∧
    parseNetworkBlock 5 "10.0.0.1-10.0.0.3".toList =
      .done ["10.0.0.1".toList, "10.0.0.2".toList, "10.0.0.3".toList] :=
  ⟨claim5_block_expansion _ 167772161 167772163 5 (by decide) (by decide) (by decide)
    (by decide) (by decide) (by decide), by decide⟩

/-- Counterexample for C5 as originally stated: for the block line
`10.0.0.0-255.255.255.255` — whose endpoints parse and satisfy
`start ≤ end` — the enumeration never produces a list at all (the `uint32`
loop counter can never exceed `end = 2^32 - 1`, so `i <= end` never turns
false), contradicting the claimed `end - start + 1` emitted addresses. -/
theorem claim5_counterexample :
    ¬ ∃ fuel addrs,
      parseNetworkBlock fuel "10.0.0.0-255.255.255.255".toList = .done addrs := by
  rintro ⟨fuel, addrs, h⟩
  have hred : parseNetworkBlock fuel "10.0.0.0-255.255.255.255".toList =
      match blockLoop fuel 167772160 (2 ^ 32 - 1) [] with
      | none => BlockRun.running
      | some l => BlockRun.done l := rfl
  rw [blockLoop_never fuel 167772160 [] (by norm_num)] at hred
  rw [hred] at h
  exact BlockRun.noConfusion h

/-! ### Claim C3 -/

/-- Claim C3 fails on the code: for the block input
`0.0.0.0-255.255.255.255` the expander never terminates — the loop
`for i := start; i <= end; i++` over a `uint32` counter cannot exit when
`end = 2^32 - 1`, so for every fuel the expansion is still `running`. -/
theorem claim3_full_range_never_terminates :
    ∀ fuel, parseAddresses fuel "0.0.0.0-255.255.255.255".toList =
      ExpandResult.running := by
  intro fuel
  have hb : parseNetworkBlock fuel "0.0.0.0-255.255.255.255".toList = .running := by
    have hred : parseNetworkBlock fuel "0.0.0.0-255.255.255.255".toList =
        match blockLoop fuel 0 (2 ^ 32 - 1) [] with
        | none => BlockRun.running
        | some l => BlockRun.done l := rfl
    rw [blockLoop_never fuel 0 [] (by norm_num)] at hred
    exact hred
  have hstep : parseAddresses fuel "0.0.0.0-255.255.255.255".toList =
      match parseNetworkBlock fuel "0.0.0.0-255.255.255.255".toList with
      | .panicked m => ExpandResult.panicked m
      | .running => ExpandResult.running
      | .done addrs => ExpandResult.ok addrs false := rfl
  rw [hstep, hb]

/-! ### Claim C2 -/

/-- Claim C2 fails on the code: a malformed block line does not produce
zero addresses with a warning — it panics and aborts the process.  The
line here is one the repository README itself lists as valid input
(`192.168.0.1 -   192.168.0.255`): the split pieces keep their spaces, so
`net.ParseIP` returns `nil` and `binary.BigEndian.Uint32(nil)` raises an
index-out-of-range runtime panic.  (A piece count other than two likewise
panics via `ErrorLogger.Panicf`.  Malformed CIDR lines, by contrast, are
skipped with a warning as claimed.) -/
theorem claim2_malformed_block_panics :
    ∀ fuel, parseAddresses fuel "192.168.0.1 -   192.168.0.255".toList =
      ExpandResult.panicked ("runtime error: index out of range".toList) :=
  fun _ => rfl

/-! ### Claim C6 -/

/-- Counterexample for C6 as stated: the empty input line produces one
address (the empty string), not zero. -/
theorem claim6_counterexample :
    parseAddresses 1 [] = ExpandResult.ok [[]] false ∧
    ([([] : List Char)] : List (List Char)).length ≠ 0 := by
  decide

/-- Claim C6 (amended): an empty input line contains neither `/` nor `-`,
so it falls through to the single-address branch and contributes exactly
one address — the empty string — to the run; a file whose contents are a
lone newline (two empty lines) contributes two empty-string addresses. -/
theorem claim6_empty_line :
    ∀ fuel, parseAddresses fuel [] = ExpandResult.ok [[]] false ∧
      getAddressesFromFile fuel ['\n'] = ExpandResult.ok [[], []] false :=
  fun _ => ⟨rfl, rfl⟩

/-! ### Claim C4 -/

/-- Counterexample for C4 as stated: a received `101 Switching Protocols`
response with an empty allowlist passes `doRequest`'s gate (the code only
rejects `statusCode >= 300`), yet `101` is neither in the 2xx class nor in
the allowlist, so the claim would classify it `RejectedStatus`. -/
theorem claim4_counterexample :
    errIsNil (classifyResponse [] 101 "x".toList) = true ∧
    ¬ (200 ≤ (101 : Int) ∧ (101 : Int) ≤ 299) ∧
    (([] : List Int).contains 101) = false := by
  refine ⟨rfl, by norm_num, rfl⟩

/-- Claim C4 (amended): `doRequest` classifies a received response as a
success exactly when its status code is **below 300** (so 1xx as well as
2xx) or is present in the accepted-status allowlist; every other received
status is rejected.  In particular a 404 is a success exactly when 404 is
in the allowlist. -/
theorem claim4_status_classification (validCodes : List Int) (statusCode : Int)
    (body : List Char) :
    ((∃ b, classifyResponse validCodes statusCode body = .ok b) ↔
      (statusCode < 300 ∨ validCodes.contains statusCode = true)) ∧
    classifyResponse [404] 404 body = .ok body ∧
    classifyResponse [] 404 body = .error ("server error".toList) := by
  refine ⟨⟨?_, ?_⟩, rfl, rfl⟩
  · rintro ⟨b, hb⟩
    unfold classifyResponse at hb
    by_cases h : (300 ≤ statusCode && !(validCodes.contains statusCode)) = true
    · rw [if_pos h] at hb
      exact absurd hb (by simp)
    · by_cases hc : validCodes.contains statusCode = true
      · exact Or.inr hc
      · left
        have hcf : validCodes.contains statusCode = false := by
          cases hcv : validCodes.contains statusCode
          · rfl
          · exact absurd hcv hc
        have h300 : ¬ (300 ≤ statusCode) := by
          intro hle
          apply h
          rw [Bool.and_eq_true, hcf]
          exact ⟨decide_eq_true hle, rfl⟩
        omega
  · intro h
    unfold classifyResponse
    have hcond : ¬ ((300 ≤ statusCode && !(validCodes.contains statusCode)) = true) := by
      rcases h with h | h
      · simp only [Bool.and_eq_true, decide_eq_true_eq, not_and]
        intro hle
        omega
      · rw [h]
        simp
    rw [if_neg hcond]
    exact ⟨body, rfl⟩

/-! ### Claim C7 -/

/-- Counterexample for C7 as stated: `"abc"` is non-empty but shorter than
the n-gram size 8, so both n-gram multisets are empty and the similarity of
`"abc"` with itself is 0, not 1 (this is the spec's own degenerate rule). -/
theorem claim7_counterexample :
    "abc".toList ≠ [] ∧ diceSimilarity "abc".toList "abc".toList = 0 := by
  exact ⟨by decide, rfl⟩

/-- Claim C7 (amended): the configured Sørensen–Dice scorer satisfies
`score(x, x) = 1` for every text `x` of length at least the n-gram size 8;
for shorter non-empty texts both n-gram multisets are empty and the score
is 0 instead. -/
theorem claim7_self_similarity (x : List Char) (hx : 8 ≤ x.length) :
    diceSimilarity x x = 1 := by
  unfold diceSimilarity
  have hg : (ngrams 8 x).length = x.length + 1 - 8 := by
    simp [ngrams]
  have hpos : 0 < (ngrams 8 x).length := by omega
  have hne : ¬ ((ngrams 8 x).length + (ngrams 8 x).length = 0) := by omega
  rw [if_neg hne]
  have hinter : ((ngrams 8 x : Multiset (List Char)) ∩ (ngrams 8 x : Multiset (List Char))) =
      (ngrams 8 x : Multiset (List Char)) := by
    rw [← Multiset.inf_eq_inter]
    exact inf_idem _
  rw [hinter, Multiset.coe_card]
  have hq : ((ngrams 8 x).length : ℚ) ≠ 0 := by
    exact_mod_cast Nat.pos_iff_ne_zero.mp hpos
  field_simp
  ring

/-- Witness for C7 at the spec's concrete scenario: the 10-character body
`AAAAAAAAAA` compared with itself scores 1. -/
theorem claim7_self_similarity_witness :
    8 ≤ ("AAAAAAAAAA".toList).length ∧
    diceSimilarity "AAAAAAAAAA".toList "AAAAAAAAAA".toList = 1 :=
  ⟨by decide, claim7_self_similarity _ (by decide)⟩

/-! ### Claim C8 -/

/-- Claim C8: every probe's request dials the candidate address (the URL
host is the address, everything else taken from the target) while carrying
the original target's virtual host in its `Host` header; and because each
probe works on its own copy of the target URL, the substitution performed
for one candidate leaves the descriptor every other probe reads unchanged
(any other probe still derives its `Host` header from the original). -/
theorem claim8_host_override (u : GoURL) (address cookieString : List Char) :
    (performTestRequest u address cookieString).url = { u with host := address } ∧
    (performTestRequest u address cookieString).url.host = address ∧
    (performTestRequest u address cookieString).hostHeader = u.host ∧
    ∀ other : List Char,
      (performTestRequest u other cookieString).hostHeader = u.host :=
  ⟨rfl, rfl, rfl, fun _ => rfl⟩

/-! ### Claim C9 -/

/-- Claim C9: a candidate whose probe fails contributes no output line and
surfaces no error — removing a failed candidate from anywhere in the run
leaves every other candidate's contribution intact — and the number of
printed lines equals the number of successful probes (only `Success`
outcomes produce a line). -/
theorem claim9_failures_silent (orig : List Char)
    (xs ys : List (List Char × Except (List Char) (List Char)))
    (a e : List Char) :
    runEmissions orig (xs ++ (a, Except.error e) :: ys) =
      runEmissions orig xs ++ runEmissions orig ys ∧
    ∀ rs, (runEmissions orig rs).length = (rs.filter (fun r => errIsNil r.2)).length := by
  constructor
  · simp [runEmissions, performTestEmit]
  · intro rs
    induction rs with
    | nil => rfl
    | cons r rs ih =>
      rcases r with ⟨addr, res⟩
      rcases res with err | body
      · simpa [runEmissions, performTestEmit, errIsNil] using ih
      · simpa [runEmissions, performTestEmit, errIsNil] using ih

/-! ### Claim C10 -/

/-- Membership in the fold that builds `ValidStatusCodes`. -/
theorem mem_statusFold (toks : List (List Char)) :
    ∀ (acc : List Int) (code : Int),
      (code ∈ toks.foldl
        (fun acc strCode =>
          match goAtoi strCode with
          | some c => acc ++ [c]
          | none => acc) acc) ↔
      code ∈ acc ∨ ∃ t ∈ toks, goAtoi t = some code := by
  induction toks with
  | nil =>
    intro acc code
    simp
  | cons t ts ih =>
    intro acc code
    simp only [List.foldl_cons]
    rcases hg : goAtoi t with _ | c
    · dsimp only
      rw [ih]
      constructor
      · rintro (h | ⟨t', ht', hgt⟩)
        · exact Or.inl h
        · exact Or.inr ⟨t', List.mem_cons_of_mem _ ht', hgt⟩
      · rintro (h | ⟨t', ht', hgt⟩)
        · exact Or.inl h
        · rcases List.mem_cons.mp ht' with rfl | ht''
          · rw [hg] at hgt
            exact absurd hgt (by simp)
          · exact Or.inr ⟨t', ht'', hgt⟩
    · dsimp only
      rw [ih]
      constructor
      · rintro (h | ⟨t', ht', hgt⟩)
        · rcases List.mem_append.mp h with h | h
          · exact Or.inl h
          · have hce : code = c := by simpa using h
            exact Or.inr ⟨t, List.mem_cons_self _ _, by rw [hg, hce]⟩
        · exact Or.inr ⟨t', List.mem_cons_of_mem _ ht', hgt⟩
      · rintro (h | ⟨t', ht', hgt⟩)
        · exact Or.inl (List.mem_append.mpr (Or.inl h))
        · rcases List.mem_cons.mp ht' with rfl | ht''
          · rw [hg] at hgt
            have hce : c = code := by simpa using hgt
            exact Or.inl (List.mem_append.mpr (Or.inr (by simp [hce])))
          · exact Or.inr ⟨t', ht'', hgt⟩

/-- Claim C10: the accepted-status allowlist contains exactly the values of
the comma-separated tokens `strconv.Atoi` accepts; a malformed token is
silently skipped — it raises no fatal error and does not prevent any other
token from being accepted. -/
theorem claim10_status_allowlist (s : List Char) (code : Int) :
    code ∈ buildValidStatusCodes s ↔
      ∃ t ∈ splitOnChar ',' s, goAtoi t = some code := by
  unfold buildValidStatusCodes
  rw [mem_statusFold]
  simp
